/- Verification of the threadstacks in-process stack-trace collector.

   Shallow embedding of the code in threadstacks/stack_tracer.{h,cc} and
   threadstacks/signal_handler.cc.  Machine-level collaborators that the
   repository only calls through an interface (libunwind's cursor, the
   symbolizer, the kernel's thread list, signal delivery, pipes and the
   timer) are modelled as explicit parameters: an unwind cursor is the list
   of instruction pointers that successive successful unw_step calls would
   expose, the symbolizer is a partial function from addresses to symbol
   strings, and the ack/timeout race of Collect is summarised by the number
   of acks that arrive before the timer fires. -/
import Mathlib

namespace threadstacks

/-- ThreadStack (stack_tracer.h).  `address` and `sizes` model the two
    fixed `int64_t[kMaxDepth]` arrays as total functions on indices; only
    entries below `depth` are ever read by the code.  The C++ arrays start
    uninitialised; the model uses 0, which is never observed because every
    read site is guarded by `depth`. -/
structure ThreadStack where
  tid : Int
  address : Nat → Int
  sizes : Nat → Int
  depth : Nat

/-- Maximum depth allowed for a stack trace (stack_tracer.h, kMaxDepth). -/
def ThreadStack.kMaxDepth : Nat := 100

/-- A freshly constructed ThreadStack: `tid = -1`, `depth = 0`. -/
def ThreadStack.init : ThreadStack :=
  { tid := -1, address := fun _ => 0, sizes := fun _ => 0, depth := 0 }

instance : Inhabited ThreadStack := ⟨ThreadStack.init⟩

/-- ThreadStack::AddFrame (stack_tracer.cc:48-52).  Writes the frame at
    index `depth` and increments `depth`; performs no bound check and
    returns nothing. -/
def ThreadStack.AddFrame (s : ThreadStack) (size addr : Int) : ThreadStack :=
  { s with
    address := Function.update s.address s.depth addr
    sizes := Function.update s.sizes s.depth size
    depth := s.depth + 1 }

/-- StackTraceForm::AddInfo (signal_handler.cc:46-54).  Refuses the frame
    when `depth >= kMaxDepth`, otherwise stores `(size, address)` at index
    `depth` and increments `depth`.  Returns the C++ bool together with the
    updated stack. -/
def StackTraceForm.AddInfo (s : ThreadStack) (size addr : Int) :
    Bool × ThreadStack :=
  if s.depth ≥ ThreadStack.kMaxDepth then (false, s)
  else
    (true,
     { s with
       sizes := Function.update s.sizes s.depth size
       address := Function.update s.address s.depth addr
       depth := s.depth + 1 })

/-- ThreadStack::Visit (stack_tracer.cc:54-58): the sequence of visitor
    invocations `(i, sizes[i], address[i])` for `i < depth`. -/
def ThreadStack.Visit (s : ThreadStack) : List (Nat × Int × Int) :=
  (List.range s.depth).map fun i => (i, s.sizes i, s.address i)

/-- One frame of ThreadStack::VisitWithSymbol (stack_tracer.cc:60-78):
    `absl::Symbolize(address) || absl::Symbolize(address - 1)`, with the
    literal "(unknown)" when both fail.  `sym` models absl::Symbolize. -/
def symbolizeFrame (sym : Int → Option String) (addr : Int) : String :=
  match sym addr with
  | some buf => buf
  | none =>
    match sym (addr - 1) with
    | some buf => buf
    | none => "(unknown)"

/-- ThreadStack::VisitWithSymbol (stack_tracer.cc:60-78): the sequence of
    visitor invocations `(i, sizes[i], address[i], symbol)` for
    `i < depth`, iterating indices from `i` for `n` more steps. -/
def visitWithSymbolAux (sym : Int → Option String) (s : ThreadStack) :
    Nat → Nat → List (Nat × Int × Int × String)
  | _, 0 => []
  | i, n + 1 =>
    (i, s.sizes i, s.address i, symbolizeFrame sym (s.address i)) ::
      visitWithSymbolAux sym s (i + 1) n

/-- ThreadStack::VisitWithSymbol (stack_tracer.cc:60-78). -/
def ThreadStack.VisitWithSymbol (sym : Int → Option String)
    (s : ThreadStack) : List (Nat × Int × Int × String) :=
  visitWithSymbolAux sym s 0 s.depth

/-- The skip loop of BackwardsTrace::Capture (stack_tracer.cc:124-126):
    `while (unw_step(&cursor) > 0 && (skip_count-- > 0)) {}`.  The cursor
    is the list of instruction pointers successive successful steps expose;
    `unw_step` fails exactly when the list is empty.  Note the evaluation
    order: `unw_step` runs (consuming a frame) before the post-decremented
    counter is tested. -/
def skipLoop : List Int → Int → List Int
  | [], _ => []
  | _ :: rest, k => if 0 < k then skipLoop rest (k - 1) else rest

/-- The capture loop of BackwardsTrace::Capture (stack_tracer.cc:127-134):
    `while (unw_step(&cursor) > 0 && stack_.depth < kMaxStackDepth)` with
    `stack_.AddFrame(0, ip)` on each iteration.  `unw_get_reg` is modelled
    as succeeding, yielding the cursor's instruction pointer. -/
def captureLoop : List Int → ThreadStack → ThreadStack
  | [], s => s
  | ip :: rest, s =>
    if s.depth < ThreadStack.kMaxDepth then captureLoop rest (s.AddFrame 0 ip)
    else s

/-- BackwardsTrace::Capture(ucontext, skip_count) (stack_tracer.cc:114-135),
    for the case where `unw_init_local` succeeds; `cursor` is the unwind
    cursor obtained from the caller-supplied context. -/
def BackwardsTrace.Capture (cursor : List Int) (skip_count : Int)
    (s : ThreadStack) : ThreadStack :=
  captureLoop (skipLoop cursor skip_count) s

/-- The address loop of StackComparator (signal_handler.cc:397-401):
    scan indices `i, i+1, ...` for `n` more entries; at the first index
    where the addresses differ return `address_a < address_b`, otherwise
    return false. -/
def addrLt (fa fb : Nat → Int) (i : Nat) : Nat → Bool
  | 0 => false
  | n + 1 =>
    if fa i ≠ fb i then decide (fa i < fb i) else addrLt fa fb (i + 1) n

/-- StackComparator::operator() (signal_handler.cc:390-404): order first by
    `depth`, then lexicographically by the first `depth` addresses. -/
def stackLt (a b : ThreadStack) : Bool :=
  if a.depth ≠ b.depth then decide (a.depth < b.depth)
  else addrLt a.address b.address 0 a.depth

/-- Insertion into a `std::set<pid_t>` kept as a strictly sorted list
    (signal_handler.cc:288, the `init_tids` set). -/
def setInsert (x : Int) : List Int → List Int
  | [] => [x]
  | y :: rest =>
    if x < y then x :: y :: rest
    else if y < x then y :: setInsert x rest
    else y :: rest

/-- `std::set<pid_t> init_tids(tids_v.begin(), tids_v.end())`
    (signal_handler.cc:288): the sorted deduplicated element list. -/
def setOfList (l : List Int) : List Int := l.foldl (fun s t => setInsert t s) []

/-- One interaction with the `unique_traces` map
    (signal_handler.cc:408-416): the map is its strictly ascending
    association list (`StackComparator` order); `find` locates a key
    equivalent to `s` (neither strictly less), in which case `s.tid` is
    appended to its vector, otherwise a fresh entry `(s, [s.tid])` is
    inserted at its ordered position. -/
def mapInsert : List (ThreadStack × List Int) → ThreadStack →
    List (ThreadStack × List Int)
  | [], s => [(s, [s.tid])]
  | (k, v) :: rest, s =>
    if stackLt s k then (s, [s.tid]) :: (k, v) :: rest
    else if stackLt k s then (k, v) :: mapInsert rest s
    else (k, v ++ [s.tid]) :: rest

/-- The grouping loop of Collect (signal_handler.cc:409-416): fold every
    retained slot into the `unique_traces` map. -/
def groupTraces (slots : List ThreadStack) : List (ThreadStack × List Int) :=
  slots.foldl mapInsert []

/-- StackTraceCollector::Result (declared in signal_handler.h, used at
    signal_handler.cc:418-426): tids sharing one trace. -/
structure Result where
  tids : List Int
  trace : ThreadStack

/-- Environment of one Collect call: the thread list returned by
    common::Sysutil::ListThreads, which tids SignalThread fails for (the
    thread died), the unwind cursor each signalled thread's handler sees,
    and how many one-byte acks arrive on the pipe before the 5 second
    timer fires. -/
structure CollectEnv where
  initTids : List Int
  signalFails : Int → Bool
  cursors : Int → List Int
  ackCount : Nat

/-- InternalHandler filling one StackTraceForm (signal_handler.cc:106-129):
    the form starts as a fresh ThreadStack carrying the target tid
    (signal_handler.cc:42); the handler captures from the signal context
    with the default `skip_count = 0` and copies every visited frame into
    the form via AddInfo. -/
def handlerForm (env : CollectEnv) (t : Int) : ThreadStack :=
  let trace := BackwardsTrace.Capture (env.cursors t) 0 ThreadStack.init
  trace.Visit.foldl
    (fun f fr => (StackTraceForm.AddInfo f fr.2.1 fr.2.2).2)
    { ThreadStack.init with tid := t }

/-- The retained slot stacks of one Collect call
    (signal_handler.cc:305-321): one StackTraceForm per enumerated tid that
    could be signalled, in ascending tid order (`init_tids` is a set). -/
def collectSlots (env : CollectEnv) : List ThreadStack :=
  ((setOfList env.initTids).filter fun t => !env.signalFails t).map
    (handlerForm env)

/-- The timeout error string (signal_handler.cc:370-372). -/
def timeoutError (n m : Nat) : String :=
  "Failed to get all (" ++ toString n ++
    ") stacktraces within timeout. Got only " ++ toString m

/-- StackTraceCollector::Collect (signal_handler.cc:286-428), under
    successful pipe/timer creation.  If fewer acks arrive than retained
    slots before the timer fires, the result is empty with the timeout
    error; otherwise the retained slots are grouped by StackComparator
    equivalence and one Result is emitted per map entry, in map order. -/
def StackTraceCollector.Collect (env : CollectEnv) : List Result × String :=
  let slots := collectSlots env
  if env.ackCount < slots.length then
    ([], timeoutError slots.length env.ackCount)
  else
    ((groupTraces slots).map fun kv => ⟨kv.2, kv.1⟩, "")

/-- Width of the %*p field (stack_tracer.cc:26):
    `2 + 2 * sizeof(void*)` on a 64-bit target. -/
def kPrintfPointerFieldWidth : Nat := 2 + 2 * 8

/-- Right-justify `s` in a field of `w` spaces, as printf `%*` does. -/
def padField (w : Nat) (s : String) : String :=
  String.mk (List.replicate (w - s.length) ' ') ++ s

/-- glibc's rendering of a `void*` for `%p`: `0x` plus lowercase hex for a
    non-null pointer, `(nil)` for null.  The `int64_t` address is
    reinterpreted as a 64-bit pointer. -/
def ptrRepr (addr : Int) : String :=
  let u := (addr % (2 ^ 64)).toNat
  if u = 0 then "(nil)" else "0x" ++ String.mk (Nat.toDigits 16 u)

/-- One line written by ThreadStack::PrettyPrint (stack_tracer.cc:80-97):
    prefix "PC: " for the first frame and four spaces otherwise, the %*p
    address, the frame size column ("(unknown)" when `size <= 0`, else
    %9ld), the symbol, a newline; snprintf truncates to the 256-byte
    buffer. -/
def frameLine (i : Nat) (framesize addr : Int) (symbol : String) : String :=
  let pre := if i = 0 then "PC: " else "    "
  let line :=
    if framesize ≤ 0 then
      pre ++ "@ " ++ padField kPrintfPointerFieldWidth (ptrRepr addr) ++
        "  (unknown)  " ++ symbol ++ "\n"
    else
      pre ++ "@ " ++ padField kPrintfPointerFieldWidth (ptrRepr addr) ++
        "  " ++ padField 9 (toString framesize) ++ "  " ++ symbol ++ "\n"
  String.mk (line.toList.take 255)

/-- ThreadStack::PrettyPrint (stack_tracer.cc:80-97): concatenation of the
    writer invocations, one per frame visited with symbolization. -/
def ThreadStack.PrettyPrint (sym : Int → Option String)
    (s : ThreadStack) : String :=
  String.join ((s.VisitWithSymbol sym).map fun fr =>
    frameLine fr.1 fr.2.1 fr.2.2.1 fr.2.2.2)

/-- The tid list line of ToPrettyString (signal_handler.cc:439-442): every
    tid but the last is followed by ", ", the last by a newline. -/
def tidLine : Int → List Int → String
  | t, [] => toString t ++ "\n"
  | t, u :: us => toString t ++ ", " ++ tidLine u us

/-- One iteration of the ToPrettyString loop (signal_handler.cc:433-449):
    a group with no tids contributes the single line "No Threads";
    otherwise a "Threads: ..." line, a "Stack trace:" line, the rendered
    frames, and a trailing newline. -/
def renderResult (sym : Int → Option String) (e : Result) : String :=
  match e.tids with
  | [] => "No Threads\n"
  | t :: ts =>
    "Threads: " ++ tidLine t ts ++ "Stack trace:\n" ++
      e.trace.PrettyPrint sym ++ "\n"

/-- StackTraceCollector::ToPrettyString (signal_handler.cc:431-451):
    the ostringstream accumulated over the result groups in order. -/
def StackTraceCollector.ToPrettyString (sym : Int → Option String)
    (r : List Result) : String :=
  r.foldl (fun acc e => acc ++ renderResult sym e) ""

/-- The Start frame printed by RequestProcessor (signal_handler.cc:231-235)
    for request number `n`. -/
def startFrame (n : Nat) : String :=
  String.mk (List.replicate 45 '=') ++ "\n" ++ toString n ++
    ") Stack traces - Start \n" ++ String.mk (List.replicate 45 '=') ++ "\n"

/-- The End frame printed by RequestProcessor (signal_handler.cc:244-248)
    for request number `n`. -/
def endFrame (n : Nat) : String :=
  String.mk (List.replicate 44 '=') ++ "\n" ++ toString n ++
    ") Stack traces - End \n" ++ String.mk (List.replicate 44 '=') ++ "\n"

/-- The stderr output of RequestProcessor for one serviced request
    (signal_handler.cc:224-249), as the list of emitted chunks: the Start
    frame always; then, when collection failed (empty results), the error
    line only, otherwise the rendered traces followed by the End frame. -/
def serviceRequest (n : Nat) (results : List Result) (error : String)
    (sym : Int → Option String) : List String :=
  startFrame n ::
    (if results.isEmpty then ["StackTrace collection failed: " ++ error ++ "\n"]
     else ["\n" ++ StackTraceCollector.ToPrettyString sym results ++ "\n",
           endFrame n])

/-- The RequestProcessor loop (signal_handler.cc:202-250) over a sequence
    of serviced requests, each given by its collection outcome:
    `request_count` starts at 0 and is pre-incremented, so the i-th
    serviced request (0-based, assuming every read succeeds) is framed
    with counter `i + 1`. -/
def requestProcessorOutputs (sym : Int → Option String)
    (reqs : List (List Result × String)) : List (List String) :=
  reqs.enum.map fun iq => serviceRequest (iq.1 + 1) iq.2.1 iq.2.2 sym

theorem AddFrame_depth (s : ThreadStack) (sz a : Int) :
    (s.AddFrame sz a).depth = s.depth + 1 := rfl

theorem AddFrame_tid (s : ThreadStack) (sz a : Int) :
    (s.AddFrame sz a).tid = s.tid := rfl

theorem AddInfo_snd_tid (s : ThreadStack) (sz a : Int) :
    (StackTraceForm.AddInfo s sz a).2.tid = s.tid := by
  unfold StackTraceForm.AddInfo
  split <;> rfl

theorem AddInfo_depth_le (s : ThreadStack) (sz a : Int)
    (h : s.depth ≤ ThreadStack.kMaxDepth) :
    (StackTraceForm.AddInfo s sz a).2.depth ≤ ThreadStack.kMaxDepth := by
  unfold StackTraceForm.AddInfo
  split
  · exact h
  · simp only []
    omega

theorem foldl_AddInfo_tid (l : List (Nat × Int × Int)) :
    ∀ f : ThreadStack,
      (l.foldl (fun f fr => (StackTraceForm.AddInfo f fr.2.1 fr.2.2).2) f).tid
        = f.tid := by
  induction l with
  | nil => intro f; rfl
  | cons fr rest ih =>
    intro f
    simpa [List.foldl_cons, ih] using AddInfo_snd_tid f fr.2.1 fr.2.2

theorem foldl_AddInfo_depth_le (l : List (Nat × Int × Int)) :
    ∀ f : ThreadStack, f.depth ≤ ThreadStack.kMaxDepth →
      (l.foldl (fun f fr => (StackTraceForm.AddInfo f fr.2.1 fr.2.2).2) f).depth
        ≤ ThreadStack.kMaxDepth := by
  induction l with
  | nil => intro f hf; exact hf
  | cons fr rest ih =>
    intro f hf
    exact ih _ (AddInfo_depth_le f fr.2.1 fr.2.2 hf)

theorem handlerForm_tid (env : CollectEnv) (t : Int) :
    (handlerForm env t).tid = t := by
  unfold handlerForm
  rw [foldl_AddInfo_tid]

theorem handlerForm_depth_le (env : CollectEnv) (t : Int) :
    (handlerForm env t).depth ≤ ThreadStack.kMaxDepth := by
  unfold handlerForm
  exact foldl_AddInfo_depth_le _ _ (by simp [ThreadStack.init, ThreadStack.kMaxDepth])

theorem skipLoop_eq_drop (cursor : List Int) :
    ∀ k : Int, 0 ≤ k → skipLoop cursor k = cursor.drop (k.toNat + 1) := by
  induction cursor with
  | nil => intro k _; simp [skipLoop]
  | cons x rest ih =>
    intro k hk
    by_cases h : 0 < k
    · have h1 : (k - 1).toNat + 1 = k.toNat := by omega
      have h2 : k.toNat = (k.toNat - 1) + 1 := by omega
      rw [skipLoop, if_pos h, ih (k - 1) (by omega), h1, h2]
      rfl
    · have h0 : k.toNat = 0 := by omega
      rw [skipLoop, if_neg h, h0]
      rfl

theorem captureLoop_eq_take_foldl (cursor : List Int) :
    ∀ s : ThreadStack,
      captureLoop cursor s =
        (cursor.take (ThreadStack.kMaxDepth - s.depth)).foldl
          (fun t ip => t.AddFrame 0 ip) s := by
  induction cursor with
  | nil => intro s; simp [captureLoop]
  | cons ip rest ih =>
    intro s
    by_cases h : s.depth < ThreadStack.kMaxDepth
    · have hk : ThreadStack.kMaxDepth - s.depth
          = (ThreadStack.kMaxDepth - (s.depth + 1)) + 1 := by omega
      rw [captureLoop, if_pos h, ih (s.AddFrame 0 ip), hk, List.take_succ_cons,
        List.foldl_cons, AddFrame_depth]
    · have hk : ThreadStack.kMaxDepth - s.depth = 0 := by omega
      rw [captureLoop, if_neg h, hk, List.take_zero, List.foldl_nil]

/-- The Capture pipeline in closed form, for non-negative skip counts: the
    cursor loses its first `skip_count + 1` frames, and the next frames are
    appended (size 0) up to the remaining capacity. -/
theorem Capture_eq (cursor : List Int) (k : Int) (hk : 0 ≤ k)
    (s : ThreadStack) :
    BackwardsTrace.Capture cursor k s =
      ((cursor.drop (k.toNat + 1)).take (ThreadStack.kMaxDepth - s.depth)).foldl
        (fun t ip => t.AddFrame 0 ip) s := by
  rw [BackwardsTrace.Capture, skipLoop_eq_drop cursor k hk,
    captureLoop_eq_take_foldl]

theorem addrLt_both_false_iff (fa fb : Nat → Int) :
    ∀ (n i : Nat),
      (addrLt fa fb i n = false ∧ addrLt fb fa i n = false) ↔
        ∀ j, j < n → fa (i + j) = fb (i + j) := by
  intro n
  induction n with
  | zero => intro i; simp [addrLt]
  | succ n ih =>
    intro i
    by_cases h : fa i = fb i
    · rw [addrLt, if_neg (by simpa using h), addrLt,
        if_neg (by simpa using h.symm)]
      constructor
      · intro hrec j hj
        rcases Nat.eq_zero_or_pos j with hj0 | hjp
        · simpa [hj0] using h
        · have hj' : j - 1 < n := by omega
          have := ((ih (i + 1)).mp hrec) (j - 1) hj'
          have harith : i + 1 + (j - 1) = i + j := by omega
          rwa [harith] at this
      · intro hall
        refine (ih (i + 1)).mpr ?_
        intro j hj
        have harith : i + 1 + j = i + (j + 1) := by omega
        rw [harith]
        exact hall (j + 1) (by omega)
    · rw [addrLt, if_pos (by simpa using h), addrLt,
        if_pos (by simpa using (Ne.symm h))]
      constructor
      · intro hff
        exfalso
        have h1 : ¬ fa i < fb i := by simpa using hff.1
        have h2 : ¬ fb i < fa i := by simpa using hff.2
        exact h (le_antisymm (le_of_not_lt h2) (le_of_not_lt h1))
      · intro hall
        exact absurd (by simpa using hall 0 (by omega)) h

theorem addrLt_trans (fa fb fc : Nat → Int) :
    ∀ (n i : Nat), addrLt fa fb i n = true → addrLt fb fc i n = true →
      addrLt fa fc i n = true := by
  intro n
  induction n with
  | zero => intro i hab; simp [addrLt] at hab
  | succ n ih =>
    intro i hab hbc
    rw [addrLt] at hab hbc ⊢
    by_cases h1 : fa i = fb i <;> by_cases h2 : fb i = fc i
    · rw [if_neg (by simpa using h1)] at hab
      rw [if_neg (by simpa using h2)] at hbc
      rw [if_neg (by simp [h1, h2])]
      exact ih (i + 1) hab hbc
    · rw [if_pos (by simpa using h2)] at hbc
      have hlt : fb i < fc i := by simpa using hbc
      have hne : fa i ≠ fc i := by rw [h1]; exact ne_of_lt hlt
      rw [if_pos (by simpa using hne)]
      simpa using h1 ▸ hlt
    · rw [if_pos (by simpa using h1)] at hab
      have hlt : fa i < fb i := by simpa using hab
      have hne : fa i ≠ fc i := by rw [← h2]; exact ne_of_lt hlt
      rw [if_pos (by simpa using hne)]
      simpa using h2 ▸ hlt
    · rw [if_pos (by simpa using h1)] at hab
      rw [if_pos (by simpa using h2)] at hbc
      have hlt : fa i < fc i :=
        lt_trans (by simpa using hab) (by simpa using hbc)
      rw [if_pos (by simpa using (ne_of_lt hlt))]
      simpa using hlt

theorem stackLt_trans (a b c : ThreadStack) (hab : stackLt a b = true)
    (hbc : stackLt b c = true) : stackLt a c = true := by
  rw [stackLt] at hab hbc ⊢
  by_cases h1 : a.depth = b.depth <;> by_cases h2 : b.depth = c.depth
  · rw [if_neg (by simpa using h1)] at hab
    rw [if_neg (by simpa using h2)] at hbc
    rw [if_neg (by simp [h1, h2])]
    rw [← h1] at hbc
    exact addrLt_trans _ _ _ _ _ hab (h1 ▸ hbc)
  · rw [if_pos (by simpa using h2)] at hbc
    have hlt : b.depth < c.depth := by simpa using hbc
    have hne : a.depth ≠ c.depth := by rw [h1]; exact Nat.ne_of_lt hlt
    rw [if_pos (by simpa using hne)]
    simp [h1, hlt]
  · rw [if_pos (by simpa using h1)] at hab
    have hlt : a.depth < b.depth := by simpa using hab
    have hne : a.depth ≠ c.depth := by rw [← h2]; exact Nat.ne_of_lt hlt
    rw [if_pos (by simpa using hne)]
    simp [← h2, hlt]
  · rw [if_pos (by simpa using h1)] at hab
    rw [if_pos (by simpa using h2)] at hbc
    have hlt : a.depth < c.depth :=
      Nat.lt_trans (by simpa using hab) (by simpa using hbc)
    rw [if_pos (by simpa using (Nat.ne_of_lt hlt))]
    simpa using hlt

theorem stackLt_both_false_iff (a b : ThreadStack) :
    (stackLt a b = false ∧ stackLt b a = false) ↔
      (a.depth = b.depth ∧ ∀ i, i < a.depth → a.address i = b.address i) := by
  rw [stackLt, stackLt]
  by_cases h : a.depth = b.depth
  · rw [if_neg (by simpa using h), if_neg (by simpa using h.symm)]
    rw [← h]
    constructor
    · intro hff
      refine ⟨rfl, ?_⟩
      intro i hi
      have := (addrLt_both_false_iff a.address b.address a.depth 0).mp hff i hi
      simpa using this
    · intro hall
      refine (addrLt_both_false_iff a.address b.address a.depth 0).mpr ?_
      intro j hj
      simpa using hall.2 j hj
  · rw [if_pos (by simpa using h), if_pos (by simpa using (Ne.symm h))]
    constructor
    · intro hff
      exfalso
      have h1 : ¬ a.depth < b.depth := by simpa using hff.1
      have h2 : ¬ b.depth < a.depth := by simpa using hff.2
      omega
    · intro hall
      exact absurd hall.1 h

theorem mem_setInsert (a x : Int) :
    ∀ l : List Int, a ∈ setInsert x l ↔ a = x ∨ a ∈ l := by
  intro l
  induction l with
  | nil => simp [setInsert]
  | cons y rest ih =>
    rw [setInsert]
    by_cases h1 : x < y
    · simp [if_pos h1]
    · rw [if_neg h1]
      by_cases h2 : y < x
      · rw [if_pos h2]
        simp only [List.mem_cons, ih]
        tauto
      · have hxy : x = y := le_antisymm (le_of_not_lt h2) (le_of_not_lt h1)
        rw [if_neg h2]
        simp [hxy]

theorem pairwise_setInsert (x : Int) :
    ∀ l : List Int, l.Pairwise (· < ·) → (setInsert x l).Pairwise (· < ·) := by
  intro l
  induction l with
  | nil => intro _; simp [setInsert]
  | cons y rest ih =>
    intro hp
    rw [List.pairwise_cons] at hp
    rw [setInsert]
    by_cases h1 : x < y
    · rw [if_pos h1, List.pairwise_cons]
      refine ⟨?_, List.pairwise_cons.mpr hp⟩
      intro b hb
      rcases List.mem_cons.mp hb with hb | hb
      · exact hb ▸ h1
      · exact lt_trans h1 (hp.1 b hb)
    · rw [if_neg h1]
      by_cases h2 : y < x
      · rw [if_pos h2, List.pairwise_cons]
        refine ⟨?_, ih hp.2⟩
        intro b hb
        rcases (mem_setInsert b x rest).mp hb with hb | hb
        · exact hb ▸ h2
        · exact hp.1 b hb
      · rw [if_neg h2]
        exact List.pairwise_cons.mpr hp

theorem pairwise_foldl_setInsert (l : List Int) :
    ∀ acc : List Int, acc.Pairwise (· < ·) →
      (l.foldl (fun s t => setInsert t s) acc).Pairwise (· < ·) := by
  induction l with
  | nil => intro acc h; exact h
  | cons x rest ih =>
    intro acc h
    exact ih (setInsert x acc) (pairwise_setInsert x acc h)

theorem pairwise_setOfList (l : List Int) :
    (setOfList l).Pairwise (· < ·) :=
  pairwise_foldl_setInsert l [] (by simp)

theorem mem_foldl_setInsert (a : Int) (l : List Int) :
    ∀ acc : List Int,
      a ∈ l.foldl (fun s t => setInsert t s) acc ↔ a ∈ acc ∨ a ∈ l := by
  induction l with
  | nil => intro acc; simp
  | cons x rest ih =>
    intro acc
    rw [List.foldl_cons, ih (setInsert x acc), mem_setInsert]
    simp only [List.mem_cons]
    tauto

theorem mem_setOfList (a : Int) (l : List Int) :
    a ∈ setOfList l ↔ a ∈ l := by
  rw [setOfList, mem_foldl_setInsert]
  simp

/-- All tids stored in the `unique_traces` map, in entry order. -/
def mapTids (m : List (ThreadStack × List Int)) : List Int :=
  (m.map Prod.snd).flatten

theorem mapTids_mapInsert (s : ThreadStack) :
    ∀ m : List (ThreadStack × List Int),
      (mapTids (mapInsert m s)).Perm (mapTids m ++ [s.tid]) := by
  intro m
  induction m with
  | nil => simp [mapTids, mapInsert]
  | cons kv rest ih =>
    obtain ⟨k, v⟩ := kv
    rw [mapInsert]
    by_cases h1 : stackLt s k
    · rw [if_pos h1]
      simp only [mapTids, List.map_cons, List.flatten_cons]
      exact @List.perm_append_comm Int [s.tid]
        (v ++ (List.map Prod.snd rest).flatten)
    · rw [if_neg h1]
      by_cases h2 : stackLt k s
      · rw [if_pos h2]
        simp only [mapTids, List.map_cons, List.flatten_cons] at ih ⊢
        rw [List.append_assoc]
        exact List.Perm.append_left v ih
      · rw [if_neg h2]
        simp only [mapTids, List.map_cons, List.flatten_cons]
        rw [List.append_assoc, List.append_assoc]
        exact List.Perm.append_left v
          (@List.perm_append_comm Int [s.tid]
            (List.map Prod.snd rest).flatten)

theorem mapTids_foldl (slots : List ThreadStack) :
    ∀ m : List (ThreadStack × List Int),
      (mapTids (slots.foldl mapInsert m)).Perm
        (mapTids m ++ slots.map ThreadStack.tid) := by
  induction slots with
  | nil => intro m; simp
  | cons s rest ih =>
    intro m
    rw [List.foldl_cons]
    have t1 := ih (mapInsert m s)
    have t2 := List.Perm.append_right (rest.map ThreadStack.tid)
      (mapTids_mapInsert s m)
    have t3 := t1.trans t2
    rw [show mapTids m ++ (s :: rest).map ThreadStack.tid
        = (mapTids m ++ [s.tid]) ++ rest.map ThreadStack.tid from by simp]
    exact t3

theorem snd_mapInsert_cases (s : ThreadStack) :
    ∀ (m : List (ThreadStack × List Int)) (v' : List Int),
      v' ∈ (mapInsert m s).map Prod.snd →
        v' = [s.tid] ∨ v' ∈ m.map Prod.snd ∨
          ∃ v ∈ m.map Prod.snd, v' = v ++ [s.tid] := by
  intro m
  induction m with
  | nil => intro v' hv; simp [mapInsert] at hv; tauto
  | cons kv rest ih =>
    obtain ⟨k, v⟩ := kv
    intro v' hv
    rw [mapInsert] at hv
    by_cases h1 : stackLt s k
    · rw [if_pos h1] at hv
      simp only [List.map_cons, List.mem_cons] at hv ⊢
      tauto
    · rw [if_neg h1] at hv
      by_cases h2 : stackLt k s
      · rw [if_pos h2] at hv
        simp only [List.map_cons, List.mem_cons] at hv ⊢
        rcases hv with hv | hv
        · tauto
        · rcases ih v' hv with h | h | ⟨w, hw, he⟩
          · tauto
          · tauto
          · exact Or.inr (Or.inr ⟨w, Or.inr hw, he⟩)
      · rw [if_neg h2] at hv
        simp only [List.map_cons, List.mem_cons] at hv ⊢
        rcases hv with hv | hv
        · exact Or.inr (Or.inr ⟨v, Or.inl rfl, hv⟩)
        · tauto

theorem fst_mapInsert_cases (s : ThreadStack) :
    ∀ (m : List (ThreadStack × List Int)) (k' : ThreadStack),
      k' ∈ (mapInsert m s).map Prod.fst →
        k' = s ∨ k' ∈ m.map Prod.fst := by
  intro m
  induction m with
  | nil => intro k' hk; simpa [mapInsert] using hk
  | cons kv rest ih =>
    obtain ⟨k, v⟩ := kv
    intro k' hk
    rw [mapInsert] at hk
    by_cases h1 : stackLt s k
    · rw [if_pos h1] at hk
      simp only [List.map_cons, List.mem_cons] at hk ⊢
      tauto
    · rw [if_neg h1] at hk
      by_cases h2 : stackLt k s
      · rw [if_pos h2] at hk
        simp only [List.map_cons, List.mem_cons] at hk ⊢
        rcases hk with hk | hk
        · tauto
        · rcases ih k' hk with h | h <;> tauto
      · rw [if_neg h2] at hk
        simp only [List.map_cons, List.mem_cons] at hk ⊢
        tauto

theorem pairwise_mapInsert (s : ThreadStack) :
    ∀ m : List (ThreadStack × List Int),
      m.Pairwise (fun a b => stackLt a.1 b.1 = true) →
        (mapInsert m s).Pairwise (fun a b => stackLt a.1 b.1 = true) := by
  intro m
  induction m with
  | nil => intro _; simp [mapInsert]
  | cons kv rest ih =>
    obtain ⟨k, v⟩ := kv
    intro hp
    rw [List.pairwise_cons] at hp
    rw [mapInsert]
    by_cases h1 : stackLt s k
    · rw [if_pos h1, List.pairwise_cons]
      refine ⟨?_, List.pairwise_cons.mpr hp⟩
      intro b hb
      rcases List.mem_cons.mp hb with hb | hb
      · exact hb ▸ h1
      · exact stackLt_trans s k b.1 h1 (hp.1 b hb)
    · rw [if_neg h1]
      by_cases h2 : stackLt k s
      · rw [if_pos h2, List.pairwise_cons]
        refine ⟨?_, ih hp.2⟩
        intro b hb
        have hb1 := List.mem_map_of_mem Prod.fst hb
        rcases fst_mapInsert_cases s rest b.1 hb1 with hbs | hbr
        · exact hbs ▸ h2
        · obtain ⟨x, hx, hxe⟩ := List.mem_map.mp hbr
          exact hxe ▸ hp.1 x hx
      · rw [if_neg h2, List.pairwise_cons]
        exact ⟨fun b hb => hp.1 b hb, hp.2⟩

theorem pairwise_groupTraces_foldl (slots : List ThreadStack) :
    ∀ m : List (ThreadStack × List Int),
      m.Pairwise (fun a b => stackLt a.1 b.1 = true) →
        (slots.foldl mapInsert m).Pairwise
          (fun a b => stackLt a.1 b.1 = true) := by
  induction slots with
  | nil => intro m h; exact h
  | cons s rest ih =>
    intro m h
    exact ih (mapInsert m s) (pairwise_mapInsert s m h)

theorem fst_groupTraces_foldl (slots : List ThreadStack) :
    ∀ (m : List (ThreadStack × List Int)) (k : ThreadStack),
      k ∈ (slots.foldl mapInsert m).map Prod.fst →
        k ∈ m.map Prod.fst ∨ k ∈ slots := by
  induction slots with
  | nil => intro m k h; exact Or.inl h
  | cons s rest ih =>
    intro m k h
    rw [List.foldl_cons] at h
    rcases ih (mapInsert m s) k h with h | h
    · rcases fst_mapInsert_cases s m k h with h | h
      · exact Or.inr (h ▸ List.mem_cons_self s rest)
      · exact Or.inl h
    · exact Or.inr (List.mem_cons_of_mem s h)

theorem snd_groupTraces_foldl_sublist (slots : List ThreadStack) :
    ∀ (m : List (ThreadStack × List Int)) (acc : List Int),
      (∀ v ∈ m.map Prod.snd, v.Sublist acc) →
        ∀ v ∈ (slots.foldl mapInsert m).map Prod.snd,
          v.Sublist (acc ++ slots.map ThreadStack.tid) := by
  induction slots with
  | nil => intro m acc h v hv; simpa using h v hv
  | cons s rest ih =>
    intro m acc h v hv
    rw [List.foldl_cons] at hv
    have hstep : ∀ w ∈ (mapInsert m s).map Prod.snd,
        w.Sublist (acc ++ [s.tid]) := by
      intro w hw
      rcases snd_mapInsert_cases s m w hw with hw1 | hw1 | ⟨w0, hw0, hwe⟩
      · exact hw1 ▸ List.Sublist.append (List.nil_sublist acc)
          (List.Sublist.refl _)
      · exact (h w hw1).trans (List.sublist_append_left acc [s.tid])
      · exact hwe ▸ List.Sublist.append (h w0 hw0) (List.Sublist.refl _)
    have := ih (mapInsert m s) (acc ++ [s.tid]) hstep v hv
    simpa [List.append_assoc] using this

/-- The tids retained after signalling: the sorted thread-id set minus the
    tids whose SignalThread call failed (signal_handler.cc:305-321). -/
def retainedTids (env : CollectEnv) : List Int :=
  (setOfList env.initTids).filter fun t => !env.signalFails t

theorem collectSlots_eq (env : CollectEnv) :
    collectSlots env = (retainedTids env).map (handlerForm env) := rfl

theorem collectSlots_tids (env : CollectEnv) :
    (collectSlots env).map ThreadStack.tid = retainedTids env := by
  rw [collectSlots_eq, List.map_map]
  have : (retainedTids env).map (ThreadStack.tid ∘ handlerForm env)
      = (retainedTids env).map id :=
    List.map_congr_left fun t _ => handlerForm_tid env t
  rw [this, List.map_id]

theorem pairwise_retainedTids (env : CollectEnv) :
    (retainedTids env).Pairwise (· < ·) :=
  (pairwise_setOfList env.initTids).filter _

theorem nodup_retainedTids (env : CollectEnv) :
    (retainedTids env).Nodup :=
  (pairwise_retainedTids env).imp ne_of_lt

theorem mem_retainedTids (env : CollectEnv) (t : Int)
    (h : t ∈ retainedTids env) : t ∈ env.initTids :=
  (mem_setOfList t env.initTids).mp (List.mem_of_mem_filter h)

theorem collect_timeout_branch (env : CollectEnv)
    (h : env.ackCount < (collectSlots env).length) :
    StackTraceCollector.Collect env =
      ([], timeoutError (collectSlots env).length env.ackCount) := by
  rw [StackTraceCollector.Collect]
  simp only [if_pos h]

theorem collect_success_branch (env : CollectEnv)
    (h : ¬ env.ackCount < (collectSlots env).length) :
    StackTraceCollector.Collect env =
      ((groupTraces (collectSlots env)).map fun kv => ⟨kv.2, kv.1⟩, "") := by
  rw [StackTraceCollector.Collect]
  simp only [if_neg h]

theorem collect_trace_mem_slots (env : CollectEnv) (r : Result)
    (hr : r ∈ (StackTraceCollector.Collect env).1) :
    r.trace ∈ collectSlots env := by
  by_cases h : env.ackCount < (collectSlots env).length
  · rw [collect_timeout_branch env h] at hr
    simp at hr
  · rw [collect_success_branch env h] at hr
    simp only [] at hr
    obtain ⟨kv, hkv, hre⟩ := List.mem_map.mp hr
    have hk : r.trace ∈ (groupTraces (collectSlots env)).map Prod.fst := by
      rw [← hre]
      exact List.mem_map_of_mem Prod.fst hkv
    rcases fst_groupTraces_foldl (collectSlots env) [] r.trace hk with h | h
    · simp at h
    · exact h

theorem collect_trace_depth_le (env : CollectEnv) (r : Result)
    (hr : r ∈ (StackTraceCollector.Collect env).1) :
    r.trace.depth ≤ ThreadStack.kMaxDepth := by
  have hmem := collect_trace_mem_slots env r hr
  rw [collectSlots_eq] at hmem
  obtain ⟨t, _, hte⟩ := List.mem_map.mp hmem
  exact hte ▸ handlerForm_depth_le env t

/-- Environment exhibiting a timeout: two live threads, no signalling
    failures, empty unwind cursors, one ack before the timer fires. -/
def envTimeout : CollectEnv :=
  { initTids := [11, 22], signalFails := fun _ => false,
    cursors := fun _ => [], ackCount := 1 }

/-- C1, claim as stated: with 2 expected threads and 1 ack the error would
    be exactly "Failed to get all 2 stacktraces within timeout. Got only
    1".  The code's error string parenthesizes the thread count
    (signal_handler.cc:370-372), so the stated literal is wrong. -/
theorem claim1_counterexample :
    (StackTraceCollector.Collect envTimeout).1 = [] ∧
    (StackTraceCollector.Collect envTimeout).2 =
      "Failed to get all (2) stacktraces within timeout. Got only 1" ∧
    (StackTraceCollector.Collect envTimeout).2 ≠
      "Failed to get all 2 stacktraces within timeout. Got only 1" := by
  refine ⟨rfl, rfl, ?_⟩
  decide

/-- C1 (amended): when fewer acks than retained threads arrive before the
    deadline, Collect returns no results and the error string
    "Failed to get all (N) stacktraces within timeout. Got only M", where
    N is the number of threads successfully signalled and M the number of
    acks received. -/
theorem claim1_timeout_error (env : CollectEnv)
    (h : env.ackCount < (collectSlots env).length) :
    StackTraceCollector.Collect env =
      ([], "Failed to get all (" ++ toString (collectSlots env).length ++
        ") stacktraces within timeout. Got only " ++
        toString env.ackCount) :=
  collect_timeout_branch env h

/-- C1 witness: the concrete two-thread, one-ack timeout. -/
theorem claim1_timeout_error_witness :
    StackTraceCollector.Collect envTimeout =
      ([], "Failed to get all (2) stacktraces within timeout. Got only 1") := by
  rw [claim1_timeout_error envTimeout (by decide)]
  rfl

/-- The unwinder behaviour exactly as the specification words it: step the
    cursor `skip_count` times discarding frames, then step appending
    frames `(ip, size 0)` until the cursor is exhausted or the trace
    reaches MAX_DEPTH. -/
def captureAsSpecified (cursor : List Int) (skip_count : Int)
    (s : ThreadStack) : ThreadStack :=
  ((cursor.drop skip_count.toNat).take
      (ThreadStack.kMaxDepth - s.depth)).foldl
    (fun t ip => t.AddFrame 0 ip) s

/-- C2, claim as stated: with `skip_count = 0` and a two-frame cursor the
    specified behaviour records both frames, but the code's skip loop
    `while (unw_step(&cursor) > 0 && (skip_count-- > 0))` consumes one
    frame even when `skip_count` is 0 (the step runs before the
    post-decrement test), so Capture records only one frame. -/
theorem claim2_counterexample :
    (BackwardsTrace.Capture [10, 20] 0 ThreadStack.init).depth = 1 ∧
    (captureAsSpecified [10, 20] 0 ThreadStack.init).depth = 2 := by
  constructor <;> rfl

/-- C2 (amended): for any non-negative skip count the code behaves as the
    specified procedure with `skip_count + 1` discarded frames: the skip
    loop steps `skip_count + 1` times (fewer if the cursor is exhausted),
    then frames `(ip, size 0)` are appended until the cursor is exhausted
    or MAX_DEPTH is reached. -/
theorem claim2_capture_skip (cursor : List Int) (k : Int) (hk : 0 ≤ k)
    (s : ThreadStack) :
    BackwardsTrace.Capture cursor k s = captureAsSpecified cursor (k + 1) s := by
  rw [Capture_eq cursor k hk s, captureAsSpecified]
  have : (k + 1).toNat = k.toNat + 1 := by omega
  rw [this]

/-- C2 witness: concrete capture with skip count 1. -/
theorem claim2_capture_skip_witness :
    BackwardsTrace.Capture [5, 6, 7] 1 ThreadStack.init =
      captureAsSpecified [5, 6, 7] 2 ThreadStack.init :=
  claim2_capture_skip [5, 6, 7] 1 (by decide) ThreadStack.init

/-- C3: for every ThreadStack within the data model's depth invariant,
    AddInfo returns false and leaves the stack unchanged exactly when
    depth equals kMaxDepth; otherwise it stores the (size, address) pair
    at index depth, increments depth, and returns true. -/
theorem claim3_addinfo (s : ThreadStack) (size addr : Int)
    (hs : s.depth ≤ ThreadStack.kMaxDepth) :
    ((StackTraceForm.AddInfo s size addr).1 = false ↔
      s.depth = ThreadStack.kMaxDepth) ∧
    (s.depth = ThreadStack.kMaxDepth →
      (StackTraceForm.AddInfo s size addr).2 = s) ∧
    (s.depth ≠ ThreadStack.kMaxDepth →
      StackTraceForm.AddInfo s size addr =
        (true,
         { s with
           sizes := Function.update s.sizes s.depth size
           address := Function.update s.address s.depth addr
           depth := s.depth + 1 })) := by
  by_cases h : s.depth ≥ ThreadStack.kMaxDepth
  · have he : s.depth = ThreadStack.kMaxDepth := le_antisymm hs h
    rw [StackTraceForm.AddInfo, if_pos h]
    exact ⟨⟨fun _ => he, fun _ => rfl⟩, fun _ => rfl, fun hne => absurd he hne⟩
  · rw [StackTraceForm.AddInfo, if_neg h]
    refine ⟨⟨fun hf => absurd hf (by simp), fun hd => absurd hd (by omega)⟩,
      fun hd => absurd hd (by omega), fun _ => rfl⟩

/-- C3 witness: appending to a fresh stack succeeds and stores the pair at
    index 0. -/
theorem claim3_addinfo_witness :
    StackTraceForm.AddInfo ThreadStack.init 7 9 =
      (true,
       { ThreadStack.init with
         sizes := Function.update ThreadStack.init.sizes 0 7
         address := Function.update ThreadStack.init.address 0 9
         depth := 1 }) :=
  (claim3_addinfo ThreadStack.init 7 9 (by decide)).2.2 (by decide)

/-- C4: two slots land in the same unique_traces group exactly when their
    stacks have equal depth and pointwise equal addresses below depth
    (std::map equivalence: neither key compares less than the other), and
    the sizes arrays play no role in the comparator. -/
theorem claim4_group_equiv (a b : ThreadStack) :
    ((stackLt a b = false ∧ stackLt b a = false) ↔
      (a.depth = b.depth ∧ ∀ i, i < a.depth → a.address i = b.address i)) ∧
    (∀ sa sb : Nat → Int,
      stackLt { a with sizes := sa } { b with sizes := sb } = stackLt a b) :=
  ⟨stackLt_both_false_iff a b, fun _ _ => rfl⟩

/-- Stack with two identical frames used in counterexamples/witnesses. -/
def stackW : ThreadStack :=
  { tid := 10, address := fun i => if i = 0 then 5 else 6,
    sizes := fun _ => 1, depth := 2 }

/-- Same addresses and depth as stackW, different sizes and tid. -/
def stackW' : ThreadStack :=
  { tid := 20, address := fun i => if i = 0 then 5 else 6,
    sizes := fun _ => 2, depth := 2 }

/-- C4 witness: stacks with equal addresses but different sizes arrays are
    comparator-equivalent, hence grouped together. -/
theorem claim4_group_equiv_witness :
    stackLt stackW stackW' = false ∧ stackLt stackW' stackW = false :=
  (claim4_group_equiv stackW stackW').1.mpr (by decide)

theorem toPrettyString_eq_join (sym : Int → Option String) (rs : List Result) :
    StackTraceCollector.ToPrettyString sym rs =
      String.join (rs.map (renderResult sym)) := by
  rw [StackTraceCollector.ToPrettyString]
  exact (List.foldl_map (renderResult sym) (fun acc s => acc ++ s) rs "").symm

/-- The grouping behaviour exactly as the specification words it: groups
    are keyed by the first slot encountered for each comparator
    equivalence class, and classes appear in first-seen order (new classes
    are appended at the end). -/
def firstSeenInsert : List (ThreadStack × List Int) → ThreadStack →
    List (ThreadStack × List Int)
  | [], s => [(s, [s.tid])]
  | (k, v) :: rest, s =>
    if stackLt s k = false ∧ stackLt k s = false then (k, v ++ [s.tid]) :: rest
    else (k, v) :: firstSeenInsert rest s

/-- First-seen-order grouping over a slot sequence, per the
    specification's words. -/
def groupTracesFirstSeen (slots : List ThreadStack) :
    List (ThreadStack × List Int) :=
  slots.foldl firstSeenInsert []

/-- Slot with a two-frame stack, signalled first. -/
def slotDeep : ThreadStack :=
  { tid := 10, address := fun i => if i = 0 then 5 else 6,
    sizes := fun _ => 0, depth := 2 }

/-- Slot with a one-frame stack, signalled second. -/
def slotShallow : ThreadStack :=
  { tid := 20, address := fun _ => 5, sizes := fun _ => 0, depth := 1 }

/-- C5, claim as stated: on the slot sequence [slotDeep, slotShallow] a
    first-seen grouping puts tid 10's group first, but the code's
    std::map iterates in StackComparator order and emits tid 20's
    shallower trace first. -/
theorem claim5_counterexample :
    (groupTraces [slotDeep, slotShallow]).map Prod.snd = [[20], [10]] ∧
    (groupTracesFirstSeen [slotDeep, slotShallow]).map Prod.snd =
      [[10], [20]] := by
  constructor <;> decide

/-- C5 (amended): result groups are produced in strictly increasing
    StackComparator order (ascending depth, then lexicographically
    ascending addresses) — the iteration order of the unique_traces
    std::map — not in first-seen order; the renderer emits groups in
    exactly the order of the result list. -/
theorem claim5_group_order (slots : List ThreadStack)
    (sym : Int → Option String) (rs : List Result) :
    (groupTraces slots).Pairwise (fun a b => stackLt a.1 b.1 = true) ∧
    StackTraceCollector.ToPrettyString sym rs =
      String.join (rs.map (renderResult sym)) :=
  ⟨pairwise_groupTraces_foldl slots [] (by simp),
   toPrettyString_eq_join sym rs⟩

/-- Environment with two live threads whose handlers produce identical
    (empty-cursor) traces; all acks arrive. -/
def envTwo : CollectEnv :=
  { initTids := [7, 3], signalFails := fun _ => false,
    cursors := fun _ => [], ackCount := 2 }

theorem collect_flatten_perm (env : CollectEnv)
    (h : ¬ env.ackCount < (collectSlots env).length) :
    (((StackTraceCollector.Collect env).1.map Result.tids).flatten).Perm
      (retainedTids env) := by
  rw [collect_success_branch env h]
  simp only [List.map_map]
  have hcomp : (Result.tids ∘ fun kv : ThreadStack × List Int =>
      (⟨kv.2, kv.1⟩ : Result)) = Prod.snd := rfl
  rw [hcomp]
  have h1 := mapTids_foldl (collectSlots env) []
  rw [mapTids] at h1
  simp only [mapTids, List.map_nil, List.flatten_nil, List.nil_append] at h1
  exact (collectSlots_tids env) ▸ h1

/-- C6: for every Collect call, the tids over all result groups are drawn
    from the initially enumerated thread set, every returned tid appears
    in exactly one group and exactly once (the flattened tid list has no
    duplicates), and within each group the tids are in strictly
    increasing order. -/
theorem claim6_tid_partition (env : CollectEnv) :
    (∀ t, t ∈ ((StackTraceCollector.Collect env).1.map Result.tids).flatten →
      t ∈ env.initTids) ∧
    ((StackTraceCollector.Collect env).1.map Result.tids).flatten.Nodup ∧
    (∀ r, r ∈ (StackTraceCollector.Collect env).1 →
      r.tids.Pairwise (· < ·)) := by
  by_cases h : env.ackCount < (collectSlots env).length
  · rw [collect_timeout_branch env h]
    simp
  · have hperm := collect_flatten_perm env h
    refine ⟨?_, ?_, ?_⟩
    · intro t ht
      exact mem_retainedTids env t (hperm.mem_iff.mp ht)
    · exact hperm.symm.nodup (nodup_retainedTids env)
    · intro r hr
      rw [collect_success_branch env h] at hr
      simp only [] at hr
      obtain ⟨kv, hkv, hre⟩ := List.mem_map.mp hr
      have hv : r.tids ∈ (groupTraces (collectSlots env)).map Prod.snd := by
        rw [← hre]
        exact List.mem_map_of_mem Prod.snd hkv
      have hsub := snd_groupTraces_foldl_sublist (collectSlots env) [] []
        (by simp) r.tids hv
      rw [List.nil_append, collectSlots_tids env] at hsub
      exact (pairwise_retainedTids env).sublist hsub

/-- C6 witness: a concrete successful collection. -/
theorem claim6_tid_partition_witness :
    (3 : Int) ∈ envTwo.initTids ∧
    ((StackTraceCollector.Collect envTwo).1.map Result.tids).flatten.Nodup :=
  ⟨(claim6_tid_partition envTwo).1 3 (by decide),
   (claim6_tid_partition envTwo).2.1⟩

/-- C8: every trace embedded in a returned result group has
    0 ≤ depth ≤ kMaxDepth, and kMaxDepth is 100. -/
theorem claim8_depth_bound (env : CollectEnv) (i : Nat)
    (hi : i < (StackTraceCollector.Collect env).1.length) :
    (((StackTraceCollector.Collect env).1.get ⟨i, hi⟩).trace.depth ≤
        ThreadStack.kMaxDepth) ∧
    ThreadStack.kMaxDepth = 100 ∧
    0 ≤ ((StackTraceCollector.Collect env).1.get ⟨i, hi⟩).trace.depth :=
  ⟨collect_trace_depth_le env _ (List.get_mem _ i hi), rfl, Nat.zero_le _⟩

/-- C8 witness: the single group returned by the concrete collection is
    within the depth bound. -/
theorem claim8_depth_bound_witness :
    (List.get (StackTraceCollector.Collect envTwo).1
        ⟨0, by decide⟩).trace.depth ≤ ThreadStack.kMaxDepth :=
  (claim8_depth_bound envTwo 0 (by decide)).1

/-- C7, claim as stated: a serviced request whose collection fails (empty
    results) prints the Start frame and the error line, but no End frame
    at all — the End frame is printed only on the success branch
    (signal_handler.cc:239-249). -/
theorem claim7_counterexample :
    startFrame 1 ∈ serviceRequest 1 [] "some error" (fun _ => none) ∧
    endFrame 1 ∉ serviceRequest 1 [] "some error" (fun _ => none) := by
  constructor <;> decide

theorem serviceRequest_start_mem (n : Nat) (results : List Result)
    (error : String) (sym : Int → Option String) :
    startFrame n ∈ serviceRequest n results error sym :=
  List.mem_cons_self _ _

theorem serviceRequest_end_mem (n : Nat) (results : List Result)
    (error : String) (sym : Int → Option String) (h : results ≠ []) :
    endFrame n ∈ serviceRequest n results error sym := by
  rw [serviceRequest, if_neg (by simpa using h)]
  simp

/-- C7 (amended): the i-th serviced request (0-based; the per-process
    counter starts at 1) is framed with counter i+1; its output always
    contains the Start frame for that counter, and contains the matching
    End frame whenever the collection succeeded (nonempty results) — on a
    failed collection only the error line follows the Start frame and no
    End frame is printed. -/
theorem claim7_frame_counters (sym : Int → Option String)
    (reqs : List (List Result × String)) (i : Nat)
    (q : List Result × String) (hq : reqs[i]? = some q) :
    (requestProcessorOutputs sym reqs)[i]? =
      some (serviceRequest (i + 1) q.1 q.2 sym) ∧
    startFrame (i + 1) ∈ serviceRequest (i + 1) q.1 q.2 sym ∧
    (q.1 ≠ [] → endFrame (i + 1) ∈ serviceRequest (i + 1) q.1 q.2 sym) := by
  refine ⟨?_, serviceRequest_start_mem _ _ _ _,
    fun h => serviceRequest_end_mem _ _ _ _ h⟩
  rw [requestProcessorOutputs, List.getElem?_map, List.getElem?_enum, hq]
  rfl

/-- A symbolizer that never resolves, used in concrete witnesses. -/
def symNone : Int → Option String := fun _ => none

/-- A concrete successful result group for witnesses. -/
def resultW : Result := ⟨[3], ThreadStack.init⟩

/-- C7 witness: the first serviced request with a successful collection
    carries matching Start and End frames numbered 1. -/
theorem claim7_frame_counters_witness :
    startFrame 1 ∈ serviceRequest 1 [resultW] "" symNone ∧
    endFrame 1 ∈ serviceRequest 1 [resultW] "" symNone :=
  ⟨(claim7_frame_counters symNone [([resultW], "")] 0 ([resultW], "") rfl).2.1,
   (claim7_frame_counters symNone [([resultW], "")] 0 ([resultW], "")
      rfl).2.2 (by simp)⟩

theorem visitWithSymbolAux_eq (sym : Int → Option String) (s : ThreadStack) :
    ∀ (n i : Nat),
      visitWithSymbolAux sym s i n =
        (List.range' i n).map fun j =>
          (j, s.sizes j, s.address j, symbolizeFrame sym (s.address j)) := by
  intro n
  induction n with
  | zero => intro i; rfl
  | succ n ih =>
    intro i
    rw [visitWithSymbolAux, List.range'_succ, List.map_cons, ih (i + 1)]

/-- C9: visiting with symbolization yields one entry per frame, in order;
    each frame's symbol is resolved by first attempting the frame's
    address, then address - 1, and finally the literal "(unknown)" — a
    symbolization miss never surfaces as an error. -/
theorem claim9_symbolization (sym : Int → Option String) (s : ThreadStack) :
    (s.VisitWithSymbol sym =
      (List.range s.depth).map fun i =>
        (i, s.sizes i, s.address i, symbolizeFrame sym (s.address i))) ∧
    (∀ a v, sym a = some v → symbolizeFrame sym a = v) ∧
    (∀ a v, sym a = none → sym (a - 1) = some v →
      symbolizeFrame sym a = v) ∧
    (∀ a, sym a = none → sym (a - 1) = none →
      symbolizeFrame sym a = "(unknown)") := by
  refine ⟨?_, ?_, ?_, ?_⟩
  · rw [ThreadStack.VisitWithSymbol, visitWithSymbolAux_eq sym s s.depth 0,
      List.range_eq_range']
  · intro a v h
    simp [symbolizeFrame, h]
  · intro a v h h'
    simp [symbolizeFrame, h, h']
  · intro a h h'
    simp [symbolizeFrame, h, h']

/-- A symbolizer resolving only address 5, for the C9 witness. -/
def symFive : Int → Option String := fun a => if a = 5 then some "foo" else none

/-- C9 witness: direct hit at 5, the off-by-one retry at 6, and the
    "(unknown)" fallback at 9. -/
theorem claim9_symbolization_witness :
    symbolizeFrame symFive 5 = "foo" ∧
    symbolizeFrame symFive 6 = "foo" ∧
    symbolizeFrame symFive 9 = "(unknown)" :=
  ⟨(claim9_symbolization symFive ThreadStack.init).2.1 5 "foo" rfl,
   (claim9_symbolization symFive ThreadStack.init).2.2.1 6 "foo" rfl rfl,
   (claim9_symbolization symFive ThreadStack.init).2.2.2 9 rfl rfl⟩

theorem string_join_append (a b : List String) :
    String.join (a ++ b) = String.join a ++ String.join b := by
  apply String.ext
  simp

theorem toPrettyString_append (sym : Int → Option String)
    (l1 l2 : List Result) :
    StackTraceCollector.ToPrettyString sym (l1 ++ l2) =
      StackTraceCollector.ToPrettyString sym l1 ++
        StackTraceCollector.ToPrettyString sym l2 := by
  rw [toPrettyString_eq_join, toPrettyString_eq_join, toPrettyString_eq_join,
    List.map_append, string_join_append]

theorem renderResult_no_threads (sym : Int → Option String) (r : Result)
    (h : r.tids = []) : renderResult sym r = "No Threads\n" := by
  rw [renderResult, h]

/-- C10: a result group with an empty tid sequence contributes exactly the
    line "No Threads" to the rendered output — no Threads: line, no Stack
    trace: line and no frame lines — and rendering continues with the
    remaining groups. -/
theorem claim10_no_threads (sym : Int → Option String)
    (pre post : List Result) (r : Result) (h : r.tids = []) :
    StackTraceCollector.ToPrettyString sym (pre ++ r :: post) =
      StackTraceCollector.ToPrettyString sym pre ++ "No Threads\n" ++
        StackTraceCollector.ToPrettyString sym post := by
  have hsplit : pre ++ r :: post = (pre ++ [r]) ++ post := by simp
  rw [hsplit, toPrettyString_append, toPrettyString_append]
  have hr : StackTraceCollector.ToPrettyString sym [r] = "No Threads\n" := by
    rw [toPrettyString_eq_join, List.map_cons, List.map_nil,
      renderResult_no_threads sym r h]
    apply String.ext
    simp
  rw [hr]

/-- C10 witness: rendering a single empty group. -/
theorem claim10_no_threads_witness :
    StackTraceCollector.ToPrettyString symNone
        [(⟨[], ThreadStack.init⟩ : Result)] = "No Threads\n" := by
  have h := claim10_no_threads symNone [] []
    (⟨[], ThreadStack.init⟩ : Result) rfl
  simp only [List.nil_append] at h
  rw [h]
  apply String.ext
  simp [StackTraceCollector.ToPrettyString]

end threadstacks
